import Mathlib

/-!
Verification of the IPTV stream-validation core (`main/iptv_processor_core.py`).

The Python source is shallowly embedded: pure text processing becomes functions
on `List Char` / `String`, the network-facing probe loop becomes a fold over an
explicit list of per-attempt outcomes, and the global result dictionary becomes
an association list threaded through the batch fold.  Latencies (Python floats
in milliseconds) are modelled as rationals.
-/

namespace IPTV

/-- Python whitespace for the default `str.strip()` and the regex `\s` class
(ASCII range, which is all the source relies on). -/
def isPySpace (c : Char) : Bool :=
  c = ' ' || c = '\t' || c = '\n' || c = '\r' || c = '\x0b' || c = '\x0c'

/-- Lowercase a character sequence, modelling `str.lower()`. -/
def lowerChars (cs : List Char) : List Char :=
  cs.map Char.toLower

/-- Does `needle` occur as a leading segment of `hay`? -/
def startsWithB : List Char → List Char → Bool
  | [], _ => true
  | _ :: _, [] => false
  | n :: ns, h :: hs => n = h && startsWithB ns hs

/-- Does `needle` occur as a contiguous segment of `hay`?  Models the Python
`needle in hay` substring test. -/
def containsSub (needle : List Char) : List Char → Bool
  | [] => startsWithB needle []
  | c :: rest => startsWithB needle (c :: rest) || containsSub needle rest

/-- Model of Python `str.strip()` (with ASCII whitespace). -/
def stripChars (l : List Char) : List Char :=
  ((l.dropWhile isPySpace).reverse.dropWhile isPySpace).reverse

/-- Model of Python `content.split('\n')`. -/
def splitNL : List Char → List (List Char)
  | [] => [[]]
  | c :: rest =>
    match splitNL rest with
    | [] => [[c]]
    | seg :: segs => if c = '\n' then [] :: seg :: segs else (c :: seg) :: segs

/-- Model of Python `str.split(sep)` for a single-character separator. -/
def splitOnChar (sep : Char) : List Char → List (List Char)
  | [] => [[]]
  | c :: rest =>
    match splitOnChar sep rest with
    | [] => [[c]]
    | seg :: segs => if c = sep then [] :: seg :: segs else (c :: seg) :: segs

/-- Channel record extracted from a source text
(`ChannelInfo` dataclass in the source). -/
structure ChannelInfo where
  url : String
  channel_name : String
  source_url : String
deriving DecidableEq

/-- Error variants produced by `verify_single_play`; each constructor stands
for one of the f-string messages assigned to `result.error`, with the embedded
HTTP status kept as data. -/
inductive ErrorTag where
  | badStatus (status : Nat)
  | nonMedia
  | requestTimeout
  | connectionFailed
  | otherFailure (msg : String)
deriving DecidableEq

/-- Probe result record (`PlayTestResult` dataclass in the source). -/
structure PlayTestResult where
  url : String
  channel_name : String
  latency : Option ℚ := none
  play_success : Bool := false
  error : Option ErrorTag := none
  content_length : Option String := none
  content_type : Option String := none
deriving DecidableEq

/-- Outcome of one HTTP attempt inside `verify_single_play`, supplied by the
environment: either a response (status, raw Content-Type header, Content-Length
header with its `"未知"` default already applied, whether the 512-byte body
read succeeds, and the elapsed wall-clock milliseconds at the decision point)
or one of the three exception classes the code catches. -/
inductive AttemptOutcome where
  | response (status : Nat) (contentType : String) (contentLength : String)
      (readOk : Bool) (elapsed : ℚ)
  | timeoutErr
  | connectionErr
  | otherErr (msg : String)
deriving DecidableEq

/-- The accepted status set `valid_status_codes = {200, 206, 302, 307}`. -/
def validStatusCodes : List Nat := [200, 206, 302, 307]

/-- The `is_media` disjunction of `verify_single_play` (the Content-Type is
already lowercased at this point, as in the source). -/
def isMediaType (ctLower : List Char) (urlLower : List Char) : Bool :=
  containsSub "video/".data ctLower ||
  containsSub "audio/".data ctLower ||
  containsSub "application/x-mpegurl".data ctLower ||
  containsSub "application/octet-stream".data ctLower ||
  containsSub ".m3u8".data urlLower

/-- One iteration of the retry loop in `verify_single_play`: updates the
mutable `result` record from the outcome of the current attempt and reports
whether the loop breaks (success).  The body-sample read failure is caught
and ignored in the source, so `readOk` does not influence the verdict. -/
def verify_attempt (ch : ChannelInfo) (r : PlayTestResult) (a : AttemptOutcome) :
    PlayTestResult × Bool :=
  match a with
  | .response status ct cl _readOk elapsed =>
    if validStatusCodes.contains status then
      let ctLower := lowerChars ct.data
      let r1 := { r with content_length := some cl, content_type := some ⟨ctLower⟩ }
      let urlLower := lowerChars ch.url.data
      if isMediaType ctLower urlLower || containsSub ".m3u8".data urlLower then
        ({ r1 with latency := some elapsed, play_success := true, error := none }, true)
      else
        ({ r1 with error := some .nonMedia }, false)
    else
      ({ r with error := some (.badStatus status) }, false)
  | .timeoutErr => ({ r with error := some .requestTimeout }, false)
  | .connectionErr => ({ r with error := some .connectionFailed }, false)
  | .otherErr m => ({ r with error := some (.otherFailure m) }, false)

/-- The retry loop of `verify_single_play` over the listed attempts. -/
def verifyLoop (ch : ChannelInfo) (r : PlayTestResult) :
    List AttemptOutcome → PlayTestResult
  | [] => r
  | a :: rest =>
    let step := verify_attempt ch r a
    if step.2 then step.1 else verifyLoop ch step.1 rest

/-- `CorePlayTester.verify_single_play`: initialises the result record for the
channel and runs the retry loop (`attempts` has length `retry_times + 1` in an
actual run, one entry per attempt). -/
def verify_single_play (ch : ChannelInfo) (attempts : List AttemptOutcome) :
    PlayTestResult :=
  verifyLoop ch { url := ch.url, channel_name := ch.channel_name } attempts

/-- The playability test of `filter_playable_channels`:
`result.play_success and (result.latency is None or result.latency <= latency_threshold)`. -/
def playablePred (threshold : ℚ) (r : PlayTestResult) : Bool :=
  r.play_success &&
    (match r.latency with
     | none => true
     | some l => decide (l ≤ threshold))

/-- `filter_playable_channels`: partitions the probe results (the values of
the result mapping) into playable and unplayable lists. -/
def filter_playable_channels (results : List PlayTestResult) (threshold : ℚ) :
    List PlayTestResult × List PlayTestResult :=
  results.foldl
    (fun st r =>
      if playablePred threshold r then (st.1 ++ [r], st.2) else (st.1, st.2 ++ [r]))
    ([], [])

/-- Match of a regex `https?://<body>+` at the head of `cs`, where `keep`
characterises the body class: case-insensitive protocol literal, then a
maximal nonempty run of `keep` characters.  Returns the matched text (in
original case) and the remainder. -/
def urlTokenWith (keep : Char → Bool) (cs : List Char) : Option (List Char × List Char) :=
  let low := lowerChars cs
  if startsWithB "https://".data low then
    let body := (cs.drop 8).takeWhile keep
    if body = [] then none else some (cs.take 8 ++ body, (cs.drop 8).drop body.length)
  else if startsWithB "http://".data low then
    let body := (cs.drop 7).takeWhile keep
    if body = [] then none else some (cs.take 7 ++ body, (cs.drop 7).drop body.length)
  else none

/-- URL group of the tier-2 regex: `https?://[^\s#]+`. -/
def urlTokenAt : List Char → Option (List Char × List Char) :=
  urlTokenWith (fun c => !isPySpace c && c != '#')

/-- URL group of the tier-3 regex: `https?://[^\s#\n\r,|]+`. -/
def urlToken3At : List Char → Option (List Char × List Char) :=
  urlTokenWith (fun c => !isPySpace c && c != '#' && c != ',' && c != '|')

/-- Regex engine behaviour of `(.+?)[,|](https?://[^\s#]+)` at a fixed start
position: the lazy name absorbs characters (never a newline) until the first
delimiter that is immediately followed by a URL token; `acc` holds the
reversed name so far. -/
def tier2FromStart : List Char → List Char → Option (List Char × List Char × List Char)
  | _, [] => none
  | acc, c :: rest =>
    if acc ≠ [] ∧ (c = ',' ∨ c = '|') then
      match urlTokenAt rest with
      | some (u, rem) => some (acc.reverse, u, rem)
      | none => tier2FromStart (c :: acc) rest
    else if c = '\n' then none
    else tier2FromStart (c :: acc) rest

/-- `re.findall` for the tier-2 pattern: leftmost matches, scanning resumes
after each match.  Fuel is one more than the scanned length. -/
def tier2All : Nat → List Char → List (List Char × List Char)
  | 0, _ => []
  | _ + 1, [] => []
  | fuel + 1, c :: rest =>
    match tier2FromStart [] (c :: rest) with
    | some (nm, u, rem) => (nm, u) :: tier2All fuel rem
    | none => tier2All fuel rest

def tier2Find (cs : List Char) : List (List Char × List Char) :=
  tier2All (cs.length + 1) cs

/-- `re.findall` for the tier-3 pattern `(https?://[^\s#\n\r,|]+)`. -/
def tier3All : Nat → List Char → List (List Char)
  | 0, _ => []
  | _ + 1, [] => []
  | fuel + 1, c :: rest =>
    match urlToken3At (c :: rest) with
    | some (u, rem) => u :: tier3All fuel rem
    | none => tier3All fuel rest

def tier3Find (cs : List Char) : List (List Char) :=
  tier3All (cs.length + 1) cs

/-- Candidate comma positions for `re.search(r'#EXTINF:.+,(.+)', line)` on a
line known to start with `#EXTINF:`: a comma at index `p` needs at least one
character between the literal (length 8) and the comma, and at least one
character after it. -/
def validCommas (l : List Char) : List Nat :=
  (List.range l.length).filter
    (fun p => decide (l.getD p ' ' = ',') && decide (9 ≤ p) && decide (p + 2 ≤ l.length))

/-- Group 1 of the EXTINF search: the greedy `.+` picks the last valid comma,
and the captured tail is stripped as in the source. -/
def extinfName (l : List Char) : Option (List Char) :=
  (validCommas l).getLast?.map (fun p => stripChars (l.drop (p + 1)))

/-- `re.match(r'https?://', line, re.IGNORECASE)`. -/
def lineStartsHTTP (line : List Char) : Bool :=
  startsWithB "http://".data (lowerChars line) ||
  startsWithB "https://".data (lowerChars line)

/-- State of the tier-1 (M3U) pass: the pending `m3u_channel_name`, the
`seen_urls` set and the accumulated channel list. -/
structure Tier1State where
  m3uName : Option (List Char)
  seen : List String
  channels : List ChannelInfo

/-- One iteration of the tier-1 loop over the stripped nonempty lines. -/
def tier1Step (src : String) (st : Tier1State) (line : List Char) : Tier1State :=
  if startsWithB "#EXTINF:".data line then
    match extinfName line with
    | some nm => { st with m3uName := some nm }
    | none => st
  else
    match st.m3uName with
    | some nm =>
      if lineStartsHTTP line && decide (nm ≠ []) then
        let url := stripChars line
        if (⟨url⟩ : String) ∈ st.seen then { st with m3uName := none }
        else
          { m3uName := none, seen := ⟨url⟩ :: st.seen,
            channels := st.channels ++ [⟨⟨url⟩, ⟨nm⟩, src⟩] }
      else st
    | none => st

/-- Shared state of the tier-2 and tier-3 passes. -/
structure ExtState where
  seen : List String
  channels : List ChannelInfo

/-- Placeholder name for a tier-2 entry with an empty name:
`f"自定义频道_{len(channels)+1}"`. -/
def defaultName (n : Nat) : List Char :=
  "自定义频道_".data ++ (Nat.repr n).data

/-- One iteration of the tier-2 loop over the findall matches. -/
def tier2Step (src : String) (st : ExtState) (p : List Char × List Char) : ExtState :=
  let name := stripChars p.1
  let url := stripChars p.2
  if url = [] ∨ (⟨url⟩ : String) ∈ st.seen then st
  else if st.channels.any (fun c => decide (c.url = (⟨url⟩ : String))) then st
  else
    let nm := if name ≠ [] then name else defaultName (st.channels.length + 1)
    { seen := ⟨url⟩ :: st.seen, channels := st.channels ++ [⟨⟨url⟩, ⟨nm⟩, src⟩] }

/-- Does a path segment start with one of the scaffolding words skipped by the
tier-3 fallback name heuristic? -/
def genericSeg (part : List Char) : Bool :=
  startsWithB "http".data part || startsWithB "www".data part ||
  startsWithB "live".data part || startsWithB "cdn".data part ||
  startsWithB "stream".data part

/-- Fallback display name for a bare URL: the first path segment longer than 3
characters that is not a scaffolding word, else `未知M3U8频道`. -/
def fallbackName (url : List Char) : List Char :=
  match (splitOnChar '/' url).find?
      (fun part => decide (part ≠ []) && decide (3 < part.length) && !genericSeg part) with
  | some p => p
  | none => "未知M3U8频道".data

/-- One iteration of the tier-3 loop over the standalone URLs. -/
def tier3Step (src : String) (st : ExtState) (u : List Char) : ExtState :=
  let url := stripChars u
  if (⟨url⟩ : String) ∈ st.seen ∨
      st.channels.any (fun c => decide (c.url = (⟨url⟩ : String))) then st
  else
    { seen := ⟨url⟩ :: st.seen,
      channels := st.channels ++ [⟨⟨url⟩, ⟨fallbackName url⟩, src⟩] }

/-- `extract_channel_name_and_url`: the three recognition tiers applied in
order over the source text, sharing the `seen_urls` set and channel list. -/
def extract_channel_name_and_url (content : String) (source_url : String) :
    List ChannelInfo :=
  let cs := content.data
  let content_lines := ((splitNL cs).map stripChars).filter (fun l => decide (l ≠ []))
  let st1 := content_lines.foldl (tier1Step source_url) ⟨none, [], []⟩
  let st2 := (tier2Find cs).foldl (tier2Step source_url) ⟨st1.seen, st1.channels⟩
  let st3 := (tier3Find cs).foldl (tier3Step source_url) st2
  st3.channels

/-- The global dedup loop of `fetch_and_extract_all_channels` (set of seen
URLs plus append-order output list). -/
def dedupByUrlAux (seen : List String) (acc : List ChannelInfo) :
    List ChannelInfo → List ChannelInfo
  | [] => acc
  | ch :: rest =>
    if ch.url ∈ seen then dedupByUrlAux seen acc rest
    else dedupByUrlAux (ch.url :: seen) (acc ++ [ch]) rest

def dedupByUrl (l : List ChannelInfo) : List ChannelInfo :=
  dedupByUrlAux [] [] l

/-- The per-source accumulation in `fetch_and_extract_all_channels`: sources
whose fetch fails (None) or returns empty text are skipped. -/
def allExtracted (fetch : String → Option String) (source_urls : List String) :
    List ChannelInfo :=
  source_urls.foldl
    (fun acc s =>
      match fetch s with
      | none => acc
      | some content =>
        if content = "" then acc else acc ++ extract_channel_name_and_url content s)
    []

/-- `fetch_and_extract_all_channels`: accumulate every source, then dedup
globally by URL keeping the first occurrence. -/
def fetch_and_extract_all_channels (fetch : String → Option String)
    (source_urls : List String) : List ChannelInfo :=
  dedupByUrl (allExtracted fetch source_urls)

/-- `collect_all_urls` over an explicit channel cache. -/
def collect_all_urls (channels : List ChannelInfo) : List String :=
  if channels = [] then [] else channels.map (fun c => c.url)

/-- Python dict assignment `results[k] = v`: overwrite in place if the key is
present, else append, preserving insertion order. -/
def dictInsert (m : List (String × PlayTestResult)) (k : String) (v : PlayTestResult) :
    List (String × PlayTestResult) :=
  if m.any (fun p => decide (p.1 = k)) then
    m.map (fun p => if p.1 = k then (k, v) else p)
  else m ++ [(k, v)]

/-- `CorePlayTester.batch_verify_play`: one verification per channel, each
worker writing the result slot for its own URL; the per-channel attempt
outcomes are supplied by the environment `env`. -/
def batch_verify_play (env : ChannelInfo → List AttemptOutcome)
    (channels : List ChannelInfo) : List (String × PlayTestResult) :=
  channels.foldl (fun m ch => dictInsert m ch.url (verify_single_play ch (env ch))) []

/-- Outcome of the `main` coroutine: either the early no-channel return or a
completed run carrying the playable/unplayable partition handed to the
output generators. -/
inductive RunOutcome where
  | noChannels
  | completed (playable unplayable : List PlayTestResult)

/-- The `main` flow: fetch and extract, collect URLs, return early when there
is nothing to verify, otherwise batch-verify and filter. -/
def main_run (fetch : String → Option String) (env : ChannelInfo → List AttemptOutcome)
    (threshold : ℚ) (source_urls : List String) : RunOutcome :=
  let channels := fetch_and_extract_all_channels fetch source_urls
  let all_urls := collect_all_urls channels
  if all_urls = [] ∨ channels = [] then .noChannels
  else
    let results := batch_verify_play env channels
    let pu := filter_playable_channels (results.map Prod.snd) threshold
    .completed pu.1 pu.2

/-- Sort key of the report: `r.latency or 9999`, where Python falsiness sends
both an absent latency and a latency of exactly 0 to the sentinel. -/
def sortKeyLatency (r : PlayTestResult) : ℚ :=
  match r.latency with
  | none => 9999
  | some l => if l = 0 then 9999 else l

def latKeyLE (a b : PlayTestResult) : Prop :=
  sortKeyLatency a ≤ sortKeyLatency b

instance : DecidableRel latKeyLE := fun a b =>
  inferInstanceAs (Decidable (sortKeyLatency a ≤ sortKeyLatency b))

instance : IsTotal PlayTestResult latKeyLE :=
  ⟨fun _ _ => le_total _ _⟩

instance : IsTrans PlayTestResult latKeyLE :=
  ⟨fun _ _ _ hab hbc => le_trans hab hbc⟩

/-- The `playable_sorted` list of `generate_play_report`: a stable sort of the
playable results by the latency key. -/
def playable_sorted (l : List PlayTestResult) : List PlayTestResult :=
  l.insertionSort latKeyLE

/-! ### Filter partition (C1) -/

lemma filter_fold_eq (threshold : ℚ) :
    ∀ (l : List PlayTestResult) (a b : List PlayTestResult),
      l.foldl
        (fun st r =>
          if playablePred threshold r then (st.1 ++ [r], st.2) else (st.1, st.2 ++ [r]))
        (a, b)
      = (a ++ l.filter (playablePred threshold),
         b ++ l.filter (fun r => !playablePred threshold r))
  | [], a, b => by simp
  | r :: rest, a, b => by
    rcases Bool.eq_false_or_eq_true (playablePred threshold r) with h | h <;>
      simp [h, filter_fold_eq threshold rest, List.filter_cons, List.append_assoc]

lemma filter_playable_channels_eq (results : List PlayTestResult) (threshold : ℚ) :
    filter_playable_channels results threshold
      = (results.filter (playablePred threshold),
         results.filter (fun r => !playablePred threshold r)) := by
  simpa [filter_playable_channels] using filter_fold_eq threshold results [] []

lemma playablePred_iff (threshold : ℚ) (r : PlayTestResult) :
    playablePred threshold r = true ↔
      (r.play_success = true ∧
        (r.latency = none ∨ ∃ l, r.latency = some l ∧ l ≤ threshold)) := by
  unfold playablePred
  cases h : r.latency <;> simp [h]

/-- C1: for every collection of probe results and every latency threshold, the
filter puts a result in the playable list iff its success flag is true and its
latency is absent or within the threshold; every other result lands in the
unplayable list, the two lists are disjoint, and their lengths sum to the
number of results. -/
theorem C1_filter_partition (results : List PlayTestResult) (threshold : ℚ) :
    (∀ r, r ∈ (filter_playable_channels results threshold).1 ↔
        r ∈ results ∧ r.play_success = true ∧
          (r.latency = none ∨ ∃ l, r.latency = some l ∧ l ≤ threshold)) ∧
    (∀ r, r ∈ (filter_playable_channels results threshold).2 ↔
        r ∈ results ∧ ¬(r.play_success = true ∧
          (r.latency = none ∨ ∃ l, r.latency = some l ∧ l ≤ threshold))) ∧
    (∀ r, ¬(r ∈ (filter_playable_channels results threshold).1 ∧
             r ∈ (filter_playable_channels results threshold).2)) ∧
    (filter_playable_channels results threshold).1.length +
        (filter_playable_channels results threshold).2.length = results.length := by
  rw [filter_playable_channels_eq]
  refine ⟨?_, ?_, ?_, ?_⟩
  · intro r
    simp [List.mem_filter, playablePred_iff, and_assoc]
  · intro r
    simp only [List.mem_filter, Bool.not_eq_true']
    have hiff := playablePred_iff threshold r
    constructor
    · rintro ⟨hm, hp⟩
      exact ⟨hm, fun hc => by rw [hiff.mpr hc] at hp; cases hp⟩
    · rintro ⟨hm, hnc⟩
      refine ⟨hm, ?_⟩
      rcases Bool.eq_false_or_eq_true (playablePred threshold r) with h | h
      · exact absurd (hiff.mp h) hnc
      · exact h
  · intro r ⟨h1, h2⟩
    simp only [List.mem_filter, Bool.not_eq_true'] at h1 h2
    rw [h1.2] at h2
    cases h2.2
  · simpa using (List.length_eq_length_filter_add (playablePred threshold)
      (l := results)).symm

/-! ### The per-attempt classifier and the retry loop (C2, C7, C10) -/

lemma verify_attempt_spec (ch : ChannelInfo) (r : PlayTestResult) (a : AttemptOutcome) :
    ((verify_attempt ch r a).2 = true →
        (verify_attempt ch r a).1.play_success = true ∧
        (verify_attempt ch r a).1.error = none) ∧
    ((verify_attempt ch r a).2 = false →
        (verify_attempt ch r a).1.play_success = r.play_success ∧
        (verify_attempt ch r a).1.latency = r.latency) := by
  cases a with
  | response status ct cl ro el =>
    simp only [verify_attempt]
    split
    · split
      · simp
      · simp
    · simp
  | timeoutErr => simp [verify_attempt]
  | connectionErr => simp [verify_attempt]
  | otherErr m => simp [verify_attempt]

lemma verifyLoop_success_error (ch : ChannelInfo) :
    ∀ (attempts : List AttemptOutcome) (r : PlayTestResult),
      r.play_success = false →
      (verifyLoop ch r attempts).play_success = true →
      (verifyLoop ch r attempts).error = none
  | [], r, hr, hs => by
    simp only [verifyLoop] at hs
    rw [hs] at hr
    cases hr
  | a :: rest, r, hr, hs => by
    rcases Bool.eq_false_or_eq_true (verify_attempt ch r a).2 with hb | hb
    · simp only [verifyLoop, hb, if_true] at hs ⊢
      exact ((verify_attempt_spec ch r a).1 hb).2
    · simp only [verifyLoop, hb, if_false, Bool.false_eq_true] at hs ⊢
      exact verifyLoop_success_error ch rest _
        (((verify_attempt_spec ch r a).2 hb).1.trans hr) hs

/-- C2: after the internal retry loop of a single-channel probe finishes, a
true success flag forces an absent failure reason, even when an earlier failed
attempt had stored one. -/
theorem C2_success_clears_error (ch : ChannelInfo) (attempts : List AttemptOutcome)
    (h : (verify_single_play ch attempts).play_success = true) :
    (verify_single_play ch attempts).error = none :=
  verifyLoop_success_error ch attempts _ rfl h

theorem C2_success_clears_error_witness :
    (verify_single_play ⟨"http://a/x.m3u8", "A", "s"⟩
        [.response 500 "text/html" "0" true 7,
         .response 200 "video/mp4" "123" true 42]).play_success = true ∧
    (verify_single_play ⟨"http://a/x.m3u8", "A", "s"⟩
        [.response 500 "text/html" "0" true 7,
         .response 200 "video/mp4" "123" true 42]).error = none :=
  ⟨by decide,
    C2_success_clears_error ⟨"http://a/x.m3u8", "A", "s"⟩
      [.response 500 "text/html" "0" true 7, .response 200 "video/mp4" "123" true 42]
      (by decide)⟩

/-- The per-attempt hypothesis of scenario B: the outcome is an HTTP response
with status 500. -/
def isStatus500 (a : AttemptOutcome) : Bool :=
  match a with
  | .response s _ _ _ _ => s == 500
  | _ => false

lemma verifyLoop_all_bad500 (ch : ChannelInfo) :
    ∀ (attempts : List AttemptOutcome) (r : PlayTestResult),
      attempts ≠ [] → attempts.all isStatus500 = true →
      r.play_success = false → r.latency = none →
      (verifyLoop ch r attempts).play_success = false ∧
      (verifyLoop ch r attempts).error = some (.badStatus 500) ∧
      (verifyLoop ch r attempts).latency = none
  | [], _, hne, _, _, _ => absurd rfl hne
  | a :: rest, r, _, hall, hr, hl => by
    simp only [List.all_cons, Bool.and_eq_true] at hall
    obtain ⟨ha, hrest⟩ := hall
    cases a with
    | response status ct cl ro el =>
      simp only [isStatus500, beq_iff_eq] at ha
      subst ha
      have hstep : verify_attempt ch r (.response 500 ct cl ro el)
          = ({ r with error := some (.badStatus 500) }, false) := rfl
      cases rest with
      | nil => simp [verifyLoop, hstep, hr, hl]
      | cons b rest' =>
        simp only [verifyLoop, hstep, Bool.false_eq_true, if_false]
        exact verifyLoop_all_bad500 ch (b :: rest') _ (by simp) hrest hr hl
    | timeoutErr => simp [isStatus500] at ha
    | connectionErr => simp [isStatus500] at ha
    | otherErr m => simp [isStatus500] at ha

/-- C7: a probe whose every attempt yields an HTTP 500 response (a status
outside the accepted set) ends with a false success flag, a bad-status failure
reason recording the code 500, and an absent latency. -/
theorem C7_bad_status_500 (ch : ChannelInfo) (attempts : List AttemptOutcome)
    (hne : attempts ≠ []) (hall : attempts.all isStatus500 = true) :
    (verify_single_play ch attempts).play_success = false ∧
    (verify_single_play ch attempts).error = some (.badStatus 500) ∧
    (verify_single_play ch attempts).latency = none :=
  verifyLoop_all_bad500 ch attempts _ hne hall rfl rfl

theorem C7_bad_status_500_witness :
    ([AttemptOutcome.response 500 "text/html" "52" true 3] ≠ [] ∧
      [AttemptOutcome.response 500 "text/html" "52" true 3].all isStatus500 = true) ∧
    ((verify_single_play ⟨"http://h/v", "V", "s"⟩
        [.response 500 "text/html" "52" true 3]).play_success = false ∧
      (verify_single_play ⟨"http://h/v", "V", "s"⟩
        [.response 500 "text/html" "52" true 3]).error = some (.badStatus 500) ∧
      (verify_single_play ⟨"http://h/v", "V", "s"⟩
        [.response 500 "text/html" "52" true 3]).latency = none) :=
  ⟨⟨by decide, by decide⟩,
    C7_bad_status_500 ⟨"http://h/v", "V", "s"⟩ _ (by decide) (by decide)⟩

/-- C10: when the channel URL contains `.m3u8` (case-insensitively), any
attempt whose status is in the accepted set is classified as a success no
matter what the Content-Type header says and whether the body-sample read
works; conversely a non-media rejection can only hit a channel whose URL
lacks that marker. -/
theorem C10_m3u8_overrides_media_check (ch : ChannelInfo) (r : PlayTestResult) :
    (∀ (status : Nat) (ct cl : String) (ro : Bool) (el : ℚ),
        containsSub ".m3u8".data (lowerChars ch.url.data) = true →
        validStatusCodes.contains status = true →
        (verify_attempt ch r (.response status ct cl ro el)).1.play_success = true ∧
        (verify_attempt ch r (.response status ct cl ro el)).1.error = none ∧
        (verify_attempt ch r (.response status ct cl ro el)).1.latency = some el ∧
        (verify_attempt ch r (.response status ct cl ro el)).2 = true) ∧
    (∀ a : AttemptOutcome,
        (verify_attempt ch r a).1.error = some .nonMedia →
        containsSub ".m3u8".data (lowerChars ch.url.data) = false) := by
  constructor
  · intro status ct cl ro el hm hs
    simp only [verify_attempt]
    split
    · split
      · simp
      · rename_i hmedia
        rw [Bool.or_eq_true] at hmedia
        exact absurd (Or.inr hm) hmedia
    · rename_i hstatus
      exact absurd hs hstatus
  · intro a herr
    cases a with
    | response status ct cl ro el =>
      simp only [verify_attempt] at herr
      split at herr
      · split at herr
        · simp at herr
        · rename_i hmedia
          rw [Bool.or_eq_true] at hmedia
          rcases Bool.eq_false_or_eq_true
              (containsSub ".m3u8".data (lowerChars ch.url.data)) with h | h
          · exact absurd (Or.inr h) hmedia
          · exact h
      · simp at herr
    | timeoutErr => simp [verify_attempt] at herr
    | connectionErr => simp [verify_attempt] at herr
    | otherErr m => simp [verify_attempt] at herr

theorem C10_m3u8_overrides_media_check_witness :
    (containsSub ".m3u8".data (lowerChars ("http://h/Live.M3U8?a=1" : String).data) = true ∧
      validStatusCodes.contains 302 = true) ∧
    ((verify_attempt ⟨"http://h/Live.M3U8?a=1", "V", "s"⟩ {url := "http://h/Live.M3U8?a=1", channel_name := "V"}
        (.response 302 "text/html" "0" false 7)).1.play_success = true ∧
      (verify_attempt ⟨"http://h/Live.M3U8?a=1", "V", "s"⟩ {url := "http://h/Live.M3U8?a=1", channel_name := "V"}
        (.response 302 "text/html" "0" false 7)).1.error = none ∧
      (verify_attempt ⟨"http://h/Live.M3U8?a=1", "V", "s"⟩ {url := "http://h/Live.M3U8?a=1", channel_name := "V"}
        (.response 302 "text/html" "0" false 7)).1.latency = some 7 ∧
      (verify_attempt ⟨"http://h/Live.M3U8?a=1", "V", "s"⟩ {url := "http://h/Live.M3U8?a=1", channel_name := "V"}
        (.response 302 "text/html" "0" false 7)).2 = true) :=
  ⟨⟨by decide, by decide⟩,
    (C10_m3u8_overrides_media_check ⟨"http://h/Live.M3U8?a=1", "V", "s"⟩
        {url := "http://h/Live.M3U8?a=1", channel_name := "V"}).1
      302 "text/html" "0" false 7 (by decide) (by decide)⟩

/-! ### Scenario A extraction (C4) -/

/-- C4: extraction of the two-format sample text yields exactly the two
records of scenario A, in order: the tagged-playlist pair and then the
delimited pair, for any provenance URL. -/
theorem C4_scenario_A (src : String) :
    extract_channel_name_and_url "#EXTINF:-1,Ch1\nhttp://x/1\nCh2,http://x/2\n" src =
      [⟨"http://x/1", "Ch1", src⟩, ⟨"http://x/2", "Ch2", src⟩] := rfl

/-! ### Batch verification (C3) -/

lemma dictInsert_fresh (m : List (String × PlayTestResult)) (k : String)
    (v : PlayTestResult) (h : ∀ p ∈ m, p.1 ≠ k) :
    dictInsert m k v = m ++ [(k, v)] := by
  have hany : m.any (fun p => decide (p.1 = k)) = false := by
    rw [List.any_eq_false]
    intro p hp
    simp [h p hp]
  simp [dictInsert, hany]

lemma batch_fold_eq (env : ChannelInfo → List AttemptOutcome) :
    ∀ (channels : List ChannelInfo) (m : List (String × PlayTestResult)),
      (channels.map (fun c => c.url)).Nodup →
      (∀ p ∈ m, ∀ ch ∈ channels, p.1 ≠ ch.url) →
      channels.foldl
          (fun m ch => dictInsert m ch.url (verify_single_play ch (env ch))) m
        = m ++ channels.map (fun ch => (ch.url, verify_single_play ch (env ch)))
  | [], m, _, _ => by simp
  | ch :: rest, m, hnod, hfresh => by
    simp only [List.map_cons, List.nodup_cons] at hnod
    simp only [List.foldl_cons]
    rw [dictInsert_fresh m ch.url _ (fun p hp => hfresh p hp ch (by simp))]
    rw [batch_fold_eq env rest (m ++ [(ch.url, verify_single_play ch (env ch))])
        hnod.2 ?_]
    · simp
    · intro p hp ch' hch'
      rcases List.mem_append.mp hp with hm | hone
      · exact hfresh p hm ch' (List.mem_cons_of_mem _ hch')
      · have hp1 : p.1 = ch.url := by
          rcases List.mem_singleton.mp hone with rfl
          rfl
        rw [hp1]
        intro hcontra
        exact hnod.1 (hcontra ▸ List.mem_map_of_mem (fun c => c.url) hch')

/-- C3: with pairwise-distinct channel URLs, the batch prober returns the
fully populated association list with exactly one entry per channel, its keys
are the input URLs in order (each written exactly once), and every channel
finds its own probe result in the returned map. -/
theorem C3_one_result_per_url (env : ChannelInfo → List AttemptOutcome)
    (channels : List ChannelInfo)
    (hnodup : (channels.map (fun c => c.url)).Nodup) :
    batch_verify_play env channels
        = channels.map (fun ch => (ch.url, verify_single_play ch (env ch))) ∧
    (batch_verify_play env channels).map Prod.fst = channels.map (fun c => c.url) ∧
    ∀ ch ∈ channels,
      (ch.url, verify_single_play ch (env ch)) ∈ batch_verify_play env channels := by
  have heq : batch_verify_play env channels
      = channels.map (fun ch => (ch.url, verify_single_play ch (env ch))) := by
    simpa [batch_verify_play] using
      batch_fold_eq env channels [] hnodup (by simp)
  refine ⟨heq, ?_, ?_⟩
  · rw [heq, List.map_map]
    rfl
  · intro ch hch
    rw [heq]
    exact List.mem_map_of_mem _ hch

theorem C3_one_result_per_url_witness :
    (([⟨"http://a/one", "A", "s"⟩, ⟨"http://b/two", "B", "s"⟩] :
        List ChannelInfo).map (fun c => c.url)).Nodup ∧
    batch_verify_play (fun _ => [.timeoutErr])
        [⟨"http://a/one", "A", "s"⟩, ⟨"http://b/two", "B", "s"⟩]
      = ([⟨"http://a/one", "A", "s"⟩, ⟨"http://b/two", "B", "s"⟩] :
          List ChannelInfo).map
          (fun ch => (ch.url, verify_single_play ch [.timeoutErr])) :=
  ⟨by decide,
    (C3_one_result_per_url (fun _ => [.timeoutErr])
      [⟨"http://a/one", "A", "s"⟩, ⟨"http://b/two", "B", "s"⟩] (by decide)).1⟩

/-! ### All sources failing (C9) -/

lemma allExtracted_fold_const (fetch : String → Option String) :
    ∀ (sources : List String) (acc : List ChannelInfo),
      (∀ s ∈ sources, fetch s = none) →
      sources.foldl
          (fun acc s =>
            match fetch s with
            | none => acc
            | some content =>
              if content = "" then acc
              else acc ++ extract_channel_name_and_url content s)
          acc = acc
  | [], _, _ => rfl
  | s :: rest, acc, h => by
    have hs : fetch s = none := h s (by simp)
    simp only [List.foldl_cons, hs]
    exact allExtracted_fold_const fetch rest acc (fun s' hs' => h s' (by simp [hs']))

/-- C9: when every configured source fails to fetch, the run returns the
no-channel outcome with zero extracted channels, for every prober environment
and threshold (so neither the prober nor the filter can influence it), and
without any exceptional outcome. -/
theorem C9_all_sources_fail (fetch : String → Option String)
    (env : ChannelInfo → List AttemptOutcome) (threshold : ℚ)
    (sources : List String) (hfail : ∀ s ∈ sources, fetch s = none) :
    main_run fetch env threshold sources = .noChannels ∧
    fetch_and_extract_all_channels fetch sources = [] := by
  have hext : fetch_and_extract_all_channels fetch sources = [] := by
    unfold fetch_and_extract_all_channels allExtracted
    rw [allExtracted_fold_const fetch sources [] hfail]
    rfl
  refine ⟨?_, hext⟩
  simp [main_run, hext, collect_all_urls]

theorem C9_all_sources_fail_witness :
    main_run (fun _ => none) (fun _ => []) 3000 ["http://src/a", "http://src/b"]
        = .noChannels ∧
      fetch_and_extract_all_channels (fun _ => none) ["http://src/a", "http://src/b"]
        = [] :=
  C9_all_sources_fail (fun _ => none) (fun _ => []) 3000
    ["http://src/a", "http://src/b"] (fun _ _ => rfl)

/-! ### Report sorting (C8) -/

/-- A playable result with measured latency 0 ms (Python treats `0.0` as
falsy in `r.latency or 9999`). -/
def rZero : PlayTestResult :=
  { url := "http://z/ch", channel_name := "Z", latency := some 0, play_success := true }

/-- A playable result with measured latency 5 ms. -/
def rFive : PlayTestResult :=
  { url := "http://f/ch", channel_name := "F", latency := some 5, play_success := true }

/-- The latency order asserted by claim C8: present values non-decreasing and
absent values after all present ones. -/
def latOrd : Option ℚ → Option ℚ → Prop
  | some x, some y => x ≤ y
  | some _, none => True
  | none, none => True
  | none, some _ => False

/-- Claim C8 as stated, applied to a playable list. -/
def LatencySortClaim (l : List PlayTestResult) : Prop :=
  List.Pairwise latOrd ((playable_sorted l).map (fun r => r.latency))

theorem C8_counterexample :
    playablePred 3000 rZero = true ∧ playablePred 3000 rFive = true ∧
    playable_sorted [rZero, rFive] = [rFive, rZero] ∧
    ¬ LatencySortClaim [rZero, rFive] := by
  have hsort : playable_sorted [rZero, rFive] = [rFive, rZero] := by decide
  refine ⟨by decide, by decide, hsort, ?_⟩
  intro hclaim
  unfold LatencySortClaim at hclaim
  rw [hsort] at hclaim
  simp only [List.map_cons, List.map_nil, List.pairwise_cons] at hclaim
  have h5 := hclaim.1 rZero.latency (by simp)
  simp only [rFive, rZero, latOrd] at h5
  norm_num at h5

/-- C8 (amended): the report sort is non-decreasing in the actual sort key
`latency or 9999` — where Python falsiness sends an absent latency AND a zero
latency to the sentinel — and is a permutation of the playable list.
Consequently latencies are non-decreasing among entries whose latency is
positive and below the sentinel, and absent-or-zero entries sort after them;
the original claim fails for a zero measured latency. -/
theorem C8_amended_key_monotone (l : List PlayTestResult) :
    List.Pairwise latKeyLE (playable_sorted l) ∧ (playable_sorted l).Perm l :=
  ⟨List.sorted_insertionSort latKeyLE l, List.perm_insertionSort latKeyLE l⟩

/-! ### Deduplication (C5) -/

lemma dedupByUrlAux_acc :
    ∀ (l : List ChannelInfo) (seen : List String) (acc : List ChannelInfo),
      dedupByUrlAux seen acc l = acc ++ dedupByUrlAux seen [] l
  | [], _, acc => by simp [dedupByUrlAux]
  | ch :: rest, seen, acc => by
    by_cases h : ch.url ∈ seen
    · simp only [dedupByUrlAux, if_pos h]
      exact dedupByUrlAux_acc rest seen acc
    · simp only [dedupByUrlAux, if_neg h]
      rw [dedupByUrlAux_acc rest _ (acc ++ [ch]), dedupByUrlAux_acc rest _ ([] ++ [ch])]
      simp

lemma dedupByUrlAux_mem_url (u : String) :
    ∀ (l : List ChannelInfo) (seen : List String),
      u ∈ (dedupByUrlAux seen [] l).map (fun c => c.url) ↔
        u ∈ l.map (fun c => c.url) ∧ u ∉ seen
  | [], seen => by simp [dedupByUrlAux]
  | ch :: rest, seen => by
    by_cases h : ch.url ∈ seen
    · simp only [dedupByUrlAux, if_pos h]
      rw [dedupByUrlAux_mem_url u rest seen]
      simp only [List.map_cons, List.mem_cons]
      constructor
      · rintro ⟨hr, hs⟩
        exact ⟨Or.inr hr, hs⟩
      · rintro ⟨hor, hs⟩
        rcases hor with heq | hr
        · exact absurd (heq ▸ h) hs
        · exact ⟨hr, hs⟩
    · simp only [dedupByUrlAux, if_neg h]
      rw [dedupByUrlAux_acc, List.nil_append]
      simp only [List.singleton_append, List.map_cons, List.mem_cons]
      rw [dedupByUrlAux_mem_url u rest (ch.url :: seen)]
      constructor
      · rintro (rfl | ⟨hr, hs⟩)
        · exact ⟨Or.inl rfl, h⟩
        · simp only [List.mem_cons, not_or] at hs
          exact ⟨Or.inr hr, hs.2⟩
      · rintro ⟨hor, hs⟩
        rcases hor with rfl | hr
        · exact Or.inl rfl
        · by_cases hu : u = ch.url
          · exact Or.inl hu
          · exact Or.inr ⟨hr, by simp [hu, hs]⟩

lemma dedupByUrlAux_nodup :
    ∀ (l : List ChannelInfo) (seen : List String),
      ((dedupByUrlAux seen [] l).map (fun c => c.url)).Nodup
  | [], seen => by simp [dedupByUrlAux]
  | ch :: rest, seen => by
    by_cases h : ch.url ∈ seen
    · simp only [dedupByUrlAux, if_pos h]
      exact dedupByUrlAux_nodup rest seen
    · simp only [dedupByUrlAux, if_neg h]
      rw [dedupByUrlAux_acc, List.nil_append]
      simp only [List.singleton_append, List.map_cons, List.nodup_cons]
      refine ⟨?_, dedupByUrlAux_nodup rest _⟩
      rw [dedupByUrlAux_mem_url]
      rintro ⟨_, habs⟩
      exact habs (by simp)

lemma dedupByUrlAux_find (u : String) :
    ∀ (l : List ChannelInfo) (seen : List String), u ∉ seen →
      (dedupByUrlAux seen [] l).find? (fun c => decide (c.url = u))
        = l.find? (fun c => decide (c.url = u))
  | [], _, _ => by simp [dedupByUrlAux]
  | ch :: rest, seen, hu => by
    by_cases h : ch.url ∈ seen
    · have hne : (decide (ch.url = u)) = false := by
        simp only [decide_eq_false_iff_not]
        intro hc
        exact hu (hc ▸ h)
      simp only [dedupByUrlAux, if_pos h, List.find?_cons, hne]
      exact dedupByUrlAux_find u rest seen hu
    · simp only [dedupByUrlAux, if_neg h]
      rw [dedupByUrlAux_acc, List.nil_append]
      by_cases hc : ch.url = u
      · have hpos : (decide (ch.url = u)) = true := by simp [hc]
        simp [List.find?_cons, hpos]
      · have hne : (decide (ch.url = u)) = false := by simp [hc]
        simp only [List.singleton_append, List.find?_cons, hne]
        exact dedupByUrlAux_find u rest (ch.url :: seen)
          (by
            simp only [List.mem_cons, not_or]
            exact ⟨fun hx => hc hx.symm, hu⟩)

/-! ### Extraction emits each URL at most once (used by C5) -/

/-- Invariant of the three extraction passes: the accumulated channel URLs
are pairwise distinct and all registered in the seen set. -/
def ExtInv (seen : List String) (channels : List ChannelInfo) : Prop :=
  (channels.map (fun c => c.url)).Nodup ∧ ∀ c ∈ channels, c.url ∈ seen

lemma ExtInv.append {seen : List String} {channels : List ChannelInfo}
    (h : ExtInv seen channels) (rec : ChannelInfo) (hfresh : rec.url ∉ seen) :
    ExtInv (rec.url :: seen) (channels ++ [rec]) := by
  constructor
  · simp only [List.map_append, List.map_cons, List.map_nil]
    rw [List.nodup_append]
    refine ⟨h.1, List.nodup_singleton _, ?_⟩
    intro x hx hx2
    simp only [List.mem_singleton] at hx2
    subst hx2
    rcases List.mem_map.mp hx with ⟨c, hc, hcu⟩
    exact hfresh (hcu ▸ h.2 c hc)
  · intro c hc
    rcases List.mem_append.mp hc with hmem | hone
    · exact List.mem_cons_of_mem _ (h.2 c hmem)
    · rcases List.mem_singleton.mp hone with rfl
      exact List.mem_cons_self _ _

lemma tier1Step_inv (src : String) (line : List Char) (st : Tier1State)
    (h : ExtInv st.seen st.channels) :
    ExtInv (tier1Step src st line).seen (tier1Step src st line).channels := by
  simp only [tier1Step]
  split
  · split <;> exact h
  · split
    · split
      · split
        · exact h
        · rename_i hseen
          exact h.append _ hseen
      · exact h
    · exact h

lemma tier2Step_inv (src : String) (p : List Char × List Char) (st : ExtState)
    (h : ExtInv st.seen st.channels) :
    ExtInv (tier2Step src st p).seen (tier2Step src st p).channels := by
  simp only [tier2Step]
  split
  · exact h
  · split
    · exact h
    · rename_i hcond _
      exact h.append _ (fun hmem => hcond (Or.inr hmem))

lemma tier3Step_inv (src : String) (u : List Char) (st : ExtState)
    (h : ExtInv st.seen st.channels) :
    ExtInv (tier3Step src st u).seen (tier3Step src st u).channels := by
  simp only [tier3Step]
  split
  · exact h
  · rename_i hcond
    exact h.append _ (fun hmem => hcond (Or.inl hmem))

lemma tier1_fold_inv (src : String) :
    ∀ (lines : List (List Char)) (st : Tier1State),
      ExtInv st.seen st.channels →
      ExtInv ((lines.foldl (tier1Step src) st).seen)
        ((lines.foldl (tier1Step src) st).channels)
  | [], _, h => h
  | line :: rest, st, h =>
    tier1_fold_inv src rest _ (tier1Step_inv src line st h)

lemma tier2_fold_inv (src : String) :
    ∀ (ps : List (List Char × List Char)) (st : ExtState),
      ExtInv st.seen st.channels →
      ExtInv ((ps.foldl (tier2Step src) st).seen)
        ((ps.foldl (tier2Step src) st).channels)
  | [], _, h => h
  | p :: rest, st, h =>
    tier2_fold_inv src rest _ (tier2Step_inv src p st h)

lemma tier3_fold_inv (src : String) :
    ∀ (us : List (List Char)) (st : ExtState),
      ExtInv st.seen st.channels →
      ExtInv ((us.foldl (tier3Step src) st).seen)
        ((us.foldl (tier3Step src) st).channels)
  | [], _, h => h
  | u :: rest, st, h =>
    tier3_fold_inv src rest _ (tier3Step_inv src u st h)

lemma extract_nodup (content source_url : String) :
    ((extract_channel_name_and_url content source_url).map (fun c => c.url)).Nodup := by
  have h0 : ExtInv ([] : List String) ([] : List ChannelInfo) := ⟨List.nodup_nil, by simp⟩
  have h1 := tier1_fold_inv source_url
    (((splitNL content.data).map stripChars).filter (fun l => decide (l ≠ [])))
    ⟨none, [], []⟩ h0
  have h2 := tier2_fold_inv source_url (tier2Find content.data) ⟨_, _⟩ h1
  have h3 := tier3_fold_inv source_url (tier3Find content.data) ⟨_, _⟩ h2
  exact h3.1

/-- C5: whenever a URL is recognised at all — and in particular when it occurs
more than once across formats or sources — the final combined channel list
keeps it exactly once, with the whole record (hence the display name) taken
from its first occurrence in processing order; moreover a single source never
emits the same URL twice, so repeats inside one source are already collapsed
to their first-processed occurrence. -/
theorem C5_dedup_first_occurrence (fetch : String → Option String)
    (sources : List String) (u : String)
    (hmem : u ∈ (allExtracted fetch sources).map (fun c => c.url)) :
    ((fetch_and_extract_all_channels fetch sources).map (fun c => c.url)).count u = 1 ∧
    (fetch_and_extract_all_channels fetch sources).find? (fun c => decide (c.url = u))
      = (allExtracted fetch sources).find? (fun c => decide (c.url = u)) ∧
    ∀ (content s : String),
      ((extract_channel_name_and_url content s).map (fun c => c.url)).Nodup := by
  refine ⟨?_, ?_, fun content s => extract_nodup content s⟩
  · apply List.count_eq_one_of_mem (dedupByUrlAux_nodup _ _)
    rw [dedupByUrlAux_mem_url]
    exact ⟨hmem, by simp⟩
  · exact dedupByUrlAux_find u _ [] (by simp)

theorem C5_dedup_first_occurrence_witness :
    "http://u/x1" ∈ (allExtracted
        (fun s => if s = "s1" then some "A,http://u/x1\n" else some "B,http://u/x1\n")
        ["s1", "s2"]).map (fun c => c.url) ∧
    (((fetch_and_extract_all_channels
          (fun s => if s = "s1" then some "A,http://u/x1\n" else some "B,http://u/x1\n")
          ["s1", "s2"]).map (fun c => c.url)).count "http://u/x1" = 1 ∧
      (fetch_and_extract_all_channels
          (fun s => if s = "s1" then some "A,http://u/x1\n" else some "B,http://u/x1\n")
          ["s1", "s2"]).find? (fun c => decide (c.url = "http://u/x1"))
        = (allExtracted
            (fun s => if s = "s1" then some "A,http://u/x1\n" else some "B,http://u/x1\n")
            ["s1", "s2"]).find? (fun c => decide (c.url = "http://u/x1"))) :=
  ⟨by decide,
    ⟨(C5_dedup_first_occurrence
      (fun s => if s = "s1" then some "A,http://u/x1\n" else some "B,http://u/x1\n")
      ["s1", "s2"] "http://u/x1" (by decide)).1,
     (C5_dedup_first_occurrence
      (fun s => if s = "s1" then some "A,http://u/x1\n" else some "B,http://u/x1\n")
      ["s1", "s2"] "http://u/x1" (by decide)).2.1⟩⟩

/-! ### Delimited-pair splitting (C6) -/

lemma dropWhile_eq_self_of_length (p : Char → Bool) :
    ∀ l : List Char, (l.dropWhile p).length = l.length → l.dropWhile p = l
  | [], _ => rfl
  | c :: rest, h => by
    by_cases hp : p c
    · exfalso
      rw [List.dropWhile_cons_of_pos hp] at h
      have hle := (List.dropWhile_sublist (l := rest) p).length_le
      simp only [List.length_cons] at h
      omega
    · exact List.dropWhile_cons_of_neg hp

lemma strip_dropWhile {l : List Char} (h : stripChars l = l) :
    l.dropWhile isPySpace = l := by
  apply dropWhile_eq_self_of_length
  have h1 : (stripChars l).length = l.length := by rw [h]
  have h2 : (stripChars l).length ≤ (l.dropWhile isPySpace).length := by
    unfold stripChars
    rw [List.length_reverse]
    calc ((l.dropWhile isPySpace).reverse.dropWhile isPySpace).length
        ≤ (l.dropWhile isPySpace).reverse.length :=
          (List.dropWhile_sublist _).length_le
      _ = (l.dropWhile isPySpace).length := List.length_reverse _
  have h3 : (l.dropWhile isPySpace).length ≤ l.length :=
    (List.dropWhile_sublist _).length_le
  omega

lemma strip_reverse_dropWhile {l : List Char} (h : stripChars l = l) :
    l.reverse.dropWhile isPySpace = l.reverse := by
  have h1 := strip_dropWhile h
  have h2 : stripChars l = (l.reverse.dropWhile isPySpace).reverse := by
    unfold stripChars
    rw [h1]
  rw [h] at h2
  have h3 := congrArg List.reverse h2
  simpa using h3.symm

lemma head_not_space_of_dropWhile {a : Char} {rest : List Char}
    (h : (a :: rest).dropWhile isPySpace = a :: rest) : isPySpace a = false := by
  by_cases hws : isPySpace a = true
  · exfalso
    rw [List.dropWhile_cons_of_pos hws] at h
    have hlen := congrArg List.length h
    have hle := (List.dropWhile_sublist (l := rest) isPySpace).length_le
    simp only [List.length_cons] at hlen
    omega
  · simpa using hws

lemma head_not_space_of_strip {l : List Char} (h : stripChars l = l) :
    ∀ c, l.head? = some c → isPySpace c = false := by
  intro c hc
  have h1 := strip_dropWhile h
  cases l with
  | nil => cases hc
  | cons a rest =>
    simp only [List.head?_cons, Option.some.injEq] at hc
    subst hc
    exact head_not_space_of_dropWhile h1

lemma last_not_space_of_strip {l : List Char} (h : stripChars l = l) :
    ∀ c, l.getLast? = some c → isPySpace c = false := by
  intro c hc
  have h1 := strip_reverse_dropWhile h
  have hh : l.reverse.head? = some c := by rw [List.head?_reverse]; exact hc
  cases hrev : l.reverse with
  | nil => rw [hrev] at hh; cases hh
  | cons a rest =>
    rw [hrev] at hh h1
    simp only [List.head?_cons, Option.some.injEq] at hh
    subst hh
    exact head_not_space_of_dropWhile h1

lemma stripChars_eq_self_of {l : List Char}
    (hhead : ∀ c, l.head? = some c → isPySpace c = false)
    (hlast : ∀ c, l.getLast? = some c → isPySpace c = false) :
    stripChars l = l := by
  unfold stripChars
  have h1 : l.dropWhile isPySpace = l := by
    cases l with
    | nil => rfl
    | cons a rest =>
      apply List.dropWhile_cons_of_neg
      simp [hhead a rfl]
  rw [h1]
  have h2 : l.reverse.dropWhile isPySpace = l.reverse := by
    cases hrev : l.reverse with
    | nil => rfl
    | cons a rest =>
      apply List.dropWhile_cons_of_neg
      have hgl : l.getLast? = some a := by
        rw [← List.head?_reverse, hrev]
        rfl
      simp [hlast a hgl]
  rw [h2, List.reverse_reverse]

lemma splitNL_no_newline : ∀ {cs : List Char}, '\n' ∉ cs → splitNL cs = [cs]
  | [], _ => rfl
  | c :: rest, h => by
    have hc : ¬(c = '\n') := fun hh => h (hh ▸ List.mem_cons_self _ _)
    have hr := splitNL_no_newline (fun hm => h (List.mem_cons_of_mem _ hm))
    simp only [splitNL, hr]
    simp [hc]

lemma tier2FromStart_run {d : Char} {url : List Char}
    (hd : d = ',' ∨ d = '|') (hu : urlTokenAt url = some (url, [])) :
    ∀ (nm acc : List Char), '\n' ∉ nm →
      (∀ j, j < nm.length → (nm[j]? = some ',' ∨ nm[j]? = some '|') →
        urlTokenAt (nm.drop (j + 1) ++ d :: url) = none) →
      (acc = [] → nm ≠ []) →
      tier2FromStart acc (nm ++ d :: url) = some (acc.reverse ++ nm, url, [])
  | [], acc, _, _, hne => by
    have hacc : acc ≠ [] := fun h => hne h rfl
    simp only [List.nil_append, List.append_nil, tier2FromStart]
    rw [if_pos ⟨hacc, hd⟩, hu]
  | c :: rest, acc, hnl, hj, _ => by
    have hc_nl : ¬(c = '\n') := fun hh => hnl (hh ▸ List.mem_cons_self _ _)
    have hrest_nl : '\n' ∉ rest := fun hm => hnl (List.mem_cons_of_mem _ hm)
    have hjS : ∀ j, j < rest.length → (rest[j]? = some ',' ∨ rest[j]? = some '|') →
        urlTokenAt (rest.drop (j + 1) ++ d :: url) = none := by
      intro j hjlt hdelim
      have := hj (j + 1) (Nat.succ_lt_succ hjlt) (by simpa using hdelim)
      simpa using this
    have hIH := tier2FromStart_run hd hu rest (c :: acc) hrest_nl hjS (by simp)
    simp only [List.cons_append, tier2FromStart, List.append_eq]
    by_cases hcase : acc ≠ [] ∧ (c = ',' ∨ c = '|')
    · have hj0 : urlTokenAt (rest ++ d :: url) = none := by
        have := hj 0 (Nat.succ_pos rest.length)
          (by rcases hcase.2 with h | h <;> simp [h])
        simpa using this
      rw [if_pos hcase, hj0, hIH]
      simp
    · rw [if_neg hcase, if_neg hc_nl, hIH]
      simp

lemma tier2All_empty (fuel : Nat) : tier2All fuel [] = [] := by
  cases fuel <;> rfl

lemma tier2Find_single {name url : List Char} {d : Char}
    (hd : d = ',' ∨ d = '|') (hu : urlTokenAt url = some (url, []))
    (hname_ne : name ≠ []) (hname_nl : '\n' ∉ name)
    (hname_nourl : ∀ j, j < name.length →
      (name[j]? = some ',' ∨ name[j]? = some '|') →
      urlTokenAt (name.drop (j + 1) ++ d :: url) = none) :
    tier2Find (name ++ d :: url) = [(name, url)] := by
  have hrun := tier2FromStart_run hd hu name [] hname_nl hname_nourl
    (fun _ => hname_ne)
  simp only [List.reverse_nil, List.nil_append] at hrun
  cases name with
  | nil => exact absurd rfl hname_ne
  | cons c rest =>
    rw [List.cons_append] at hrun ⊢
    unfold tier2Find
    simp only [tier2All]
    rw [hrun]
    simp [tier2All_empty]

lemma tier1Step_init_seen (src : String) (line : List Char) :
    (tier1Step src ⟨none, [], []⟩ line).seen = [] := by
  simp only [tier1Step]
  split
  · split <;> rfl
  · rfl

lemma tier1Step_init_channels (src : String) (line : List Char) :
    (tier1Step src ⟨none, [], []⟩ line).channels = [] := by
  simp only [tier1Step]
  split
  · split <;> rfl
  · rfl

lemma tier2Step_first (src : String) (name url : List Char)
    (hname_ne : name ≠ []) (hname_str : stripChars name = name)
    (hurl_str : stripChars url = url) (hurl_ne : url ≠ []) :
    tier2Step src ⟨[], []⟩ (name, url)
      = ⟨[⟨url⟩], [⟨⟨url⟩, ⟨name⟩, src⟩]⟩ := by
  simp only [tier2Step, hname_str, hurl_str]
  rw [if_neg (by simp [hurl_ne]), if_neg (by simp), if_pos hname_ne]
  rfl

lemma tier3_fold_head (src : String) :
    ∀ (us : List (List Char)) (st : ExtState), st.channels ≠ [] →
      ((us.foldl (tier3Step src) st).channels).head? = st.channels.head? ∧
      (us.foldl (tier3Step src) st).channels ≠ []
  | [], _, h => ⟨rfl, h⟩
  | u :: rest, st, h => by
    have hstep : (tier3Step src st u).channels.head? = st.channels.head? ∧
        (tier3Step src st u).channels ≠ [] := by
      simp only [tier3Step]
      split
      · exact ⟨rfl, h⟩
      · constructor
        · cases hch : st.channels with
          | nil => exact absurd hch h
          | cons a l => simp [hch]
        · simp
    have hrec := tier3_fold_head src rest (tier3Step src st u) hstep.2
    exact ⟨hrec.1.trans hstep.1, hrec.2⟩

/-- C6 (amended): the delimited-pair tier splits a line `<name><delim><url>`
on the last delimiter before the URL provided no delimiter inside the name is
itself immediately followed by URL-shaped text (the regex name group is lazy,
so the engine really takes the FIRST delimiter whose suffix parses as a URL;
under the proviso these coincide): the first extracted record carries the
entire text preceding that delimiter as its name and the whole URL token as
its url.  Without the proviso the claim fails, see the counterexample. -/
theorem C6_amended_delimited_split (name url : List Char) (d : Char) (src : String)
    (hd : d = ',' ∨ d = '|')
    (hname_ne : name ≠ [])
    (hname_nl : '\n' ∉ name)
    (hname_str : stripChars name = name)
    (hname_nourl : ∀ j, j < name.length →
      (name[j]? = some ',' ∨ name[j]? = some '|') →
      urlTokenAt (name.drop (j + 1) ++ d :: url) = none)
    (hu : urlTokenAt url = some (url, []))
    (hurl_nl : '\n' ∉ url)
    (hurl_str : stripChars url = url)
    (hurl_ne : url ≠ []) :
    (extract_channel_name_and_url ⟨name ++ d :: url⟩ src).head?
      = some ⟨⟨url⟩, ⟨name⟩, src⟩ := by
  have hd_nl : ¬(d = '\n') := by
    rcases hd with rfl | rfl <;> decide
  have hLnl : '\n' ∉ name ++ d :: url := by
    intro hmem
    rcases List.mem_append.mp hmem with h | h
    · exact hname_nl h
    · rcases List.mem_cons.mp h with h | h
      · exact hd_nl h.symm
      · exact hurl_nl h
  have hstripL : stripChars (name ++ d :: url) = name ++ d :: url := by
    apply stripChars_eq_self_of
    · intro c hc
      cases name with
      | nil => exact absurd rfl hname_ne
      | cons a rest =>
        simp only [List.cons_append, List.head?_cons, Option.some.injEq] at hc
        exact hc ▸ head_not_space_of_strip hname_str a rfl
    · intro c hc
      cases url with
      | nil => exact absurd rfl hurl_ne
      | cons b bs =>
        rw [List.getLast?_append] at hc
        have hbs : ((d :: b :: bs).getLast?) = (b :: bs).getLast? :=
          List.getLast?_cons_cons
        rw [hbs] at hc
        cases hgl : (b :: bs).getLast? with
        | none =>
          rw [List.getLast?_eq_none_iff] at hgl
          cases hgl
        | some x =>
          rw [hgl] at hc
          have hxc : x = c := by simpa [Option.or] using hc
          exact hxc ▸ last_not_space_of_strip hurl_str x hgl
  have hcl : ((splitNL (name ++ d :: url)).map stripChars).filter
      (fun l => decide (l ≠ [])) = [name ++ d :: url] := by
    rw [splitNL_no_newline hLnl]
    simp only [List.map_cons, List.map_nil, hstripL]
    have hne : name ++ d :: url ≠ [] := by simp
    simp [hne]
  simp only [extract_channel_name_and_url]
  rw [hcl, List.foldl_cons, List.foldl_nil,
    tier1Step_init_seen, tier1Step_init_channels,
    tier2Find_single hd hu hname_ne hname_nl hname_nourl,
    List.foldl_cons, List.foldl_nil,
    tier2Step_first src name url hname_ne hname_str hurl_str hurl_ne,
    (tier3_fold_head src (tier3Find (name ++ d :: url))
      ⟨[⟨url⟩], [⟨⟨url⟩, ⟨name⟩, src⟩]⟩ (by simp)).1]
  rfl

theorem C6_amended_delimited_split_witness :
    (extract_channel_name_and_url ⟨"My, Movie".data ++ ',' :: "http://u/v1".data⟩ "s").head?
      = some ⟨⟨"http://u/v1".data⟩, ⟨"My, Movie".data⟩, "s"⟩ :=
  C6_amended_delimited_split "My, Movie".data "http://u/v1".data ',' "s"
    (Or.inl rfl) (by decide) (by decide) (by decide) (by decide) (by decide)
    (by decide) (by decide) (by decide)

/-- C6 counterexample input: the line `A,http://b,http://c` has the claimed
form with name `A,http://b` (containing a comma), delimiter `,` and url
`http://c`; the claim predicts a record named `A,http://b` with url
`http://c`, but the code splits at the FIRST delimiter followed by a URL and
lets the URL group swallow the second delimiter, then the bare-URL fallback
adds the two fragments separately. -/
theorem C6_counterexample :
    extract_channel_name_and_url "A,http://b,http://c" "s"
      = [⟨"http://b,http://c", "A", "s"⟩,
         ⟨"http://b", "未知M3U8频道", "s"⟩,
         ⟨"http://c", "未知M3U8频道", "s"⟩] ∧
    (extract_channel_name_and_url "A,http://b,http://c" "s").all
      (fun c => !(decide (c.channel_name = "A,http://b") &&
                  decide (c.url = "http://c"))) = true :=
  ⟨rfl, by decide⟩

end IPTV
